import Mathlib

/-!
Shallow embedding of the Sea Salt and Paper scoring engine.

The source is a TypeScript module whose core is a pure scoring pass
`turn(hand, played)` over a list of cards, with a module-level memo
`sharksAndSwimmers` shared by the shark and swimmer evaluators.  We embed
the data model and every evaluator, threading the memo explicitly as an
`Option` value through the pass, so that the cross-pass behaviour of the
module-level cache is expressible.
-/

/-- The eleven canonical colors from `data.ts` (`colors`). -/
inductive Color where
  | darkBlue
  | lightBlue
  | black
  | yellow
  | lightGreen
  | white
  | purple
  | lightGrey
  | lightOrange
  | lightPink
  | orange
deriving DecidableEq, Repr

/-- The fourteen canonical card names from `data.ts` (`card_names`). -/
inductive CardName where
  | crab
  | boat
  | fish
  | swimmer
  | shark
  | mermaid
  | shell
  | octopus
  | penguin
  | sailor
  | lighthouse
  | shoalOfFish
  | penguinColony
  | captain
deriving DecidableEq, Repr

/-- A card is either in the private hand or publicly played. -/
inductive CardState where
  | hand
  | played
deriving DecidableEq, Repr

/-- `Card = { name, color, state }` from the source. -/
structure Card where
  name : CardName
  color : Color
  state : CardState
deriving DecidableEq, Repr

/-- `EvalResult = { points, effects }`.  Points are rational because the
shark and swimmer evaluators each contribute half a point per pair. -/
structure EvalResult where
  points : ℚ
  effects : List String
deriving DecidableEq, Repr

/-- `getCardsByName`: the (hand, played) counts of cards of a given name. -/
def getCardsByName (name : CardName) (cards : List Card) : Nat × Nat :=
  let matching := cards.filter (fun c => c.name = name)
  (matching.countP (fun c => c.state = CardState.hand),
   matching.countP (fun c => c.state = CardState.played))

/-- The value memoized in the module-level `sharksAndSwimmers` variable:
the `[shark, swimmer]` pair of `{hand, played}` counts. -/
structure SAS where
  sharkCounts : Nat × Nat
  swimmerCounts : Nat × Nat
deriving DecidableEq, Repr

/-- The computation performed by `getSharksAndSwimmers` on a cache miss. -/
def computeSharksAndSwimmers (cards : List Card) : SAS :=
  { sharkCounts := getCardsByName CardName.shark cards
    swimmerCounts := getCardsByName CardName.swimmer cards }

/-- `getSharksAndSwimmers`: return the memoized value if present, else
compute it; the second component is the cache variable after the call. -/
def getSharksAndSwimmers (cache : Option SAS) (cards : List Card) :
    SAS × Option SAS :=
  match cache with
  | some v => (v, some v)
  | none =>
    let v := computeSharksAndSwimmers cards
    (v, some v)

/-- One step of `getColorFrequency`: bump the count of a color in the
insertion-ordered association list (a JS object keeps string keys in
insertion order, which the mermaid evaluator iterates). -/
def bumpColor (acc : List (Color × Nat)) (c : Color) : List (Color × Nat) :=
  match acc with
  | [] => [(c, 1)]
  | (c0, n) :: rest =>
    if c0 = c then (c0, n + 1) :: rest else (c0, n) :: bumpColor rest c

/-- `getColorFrequency`: tally colors over a card list, keyed in order of
first appearance. -/
def getColorFrequency (cards : List Card) : List (Color × Nat) :=
  cards.foldl (fun acc card => bumpColor acc card.color) []

/-- JavaScript `Array.prototype.at`: a negative index counts back from the
end of the array; out-of-range yields `undefined` (here `none`). -/
def jsAt (l : List Nat) (i : Int) : Option Nat :=
  if 0 ≤ i then l.get? i.toNat
  else
    let j : Int := (l.length : Int) + i
    if 0 ≤ j then l.get? j.toNat else none

/-- Advisory effect string of the crab duo pair. -/
def crabEffect : String :=
  "[If they play 2 crab cards] The player chooses a discard pile, consults it without shuffling it, and chooses a card from it to add to their hand. They do not have to show it to the other players"

/-- Advisory effect string of the boat duo pair. -/
def boatEffect : String :=
  "[If they play 2 boat cards] The player immediately takes another turn"

/-- Advisory effect string of the fish duo pair. -/
def fishEffect : String :=
  "[If they play 2 fish cards] The player adds the top card from the deck to their hand."

/-- Advisory effect string of the shark/swimmer steal action. -/
def stealEffect : String :=
  "[If they play a pair of shark, swimmer cards] The player steals a random card from another player and adds it to their hand."

/-- Advisory effect string of the four-mermaid immediate win. -/
def mermaidWinEffect : String :=
  "If they place 4 mermaid cards, the player immediately wins the game"

/-- Advisory effect string of the seven-point round-ending option. -/
def roundEndEffect : String :=
  "If the player has reached 7 points or more by counting the points on their cards, both in their hand and in front of them (see Card Details), they can decide to end the round"

/-- `evalDuoCard`: floor((hand+played)/2) points; the pair effect fires
when `Math.floor(hand / 2)` is truthy, i.e. nonzero. -/
def evalDuoCard (name : CardName) (effect : String) (cards : List Card) :
    EvalResult :=
  let hp := getCardsByName name cards
  let effects := if hp.1 / 2 ≠ 0 then [effect] else []
  { points := (((hp.1 + hp.2) / 2 : Nat) : ℚ), effects }

/-- `evalCollectorCard`: `points = scaling.at(total - 1) || 0`. -/
def evalCollectorCard (name : CardName) (scaling : List Nat)
    (cards : List Card) : EvalResult :=
  let total := (cards.filter (fun c => c.name = name)).length
  let points := (jsAt scaling ((total : Int) - 1)).getD 0
  { points := (points : ℚ), effects := [] }

/-- `evalPointMultiplierCard`: `points = total * factor` for the referenced
card name. -/
def evalPointMultiplierCard (name : CardName) (factor : Nat)
    (cards : List Card) : EvalResult :=
  let total := (cards.filter (fun c => c.name = name)).length
  { points := ((total * factor : Nat) : ℚ), effects := [] }

/-- `card_types.swimmer.eval`: consults the shark/swimmer memo, pushes the
steal effect when at least one of each is in hand, and contributes half a
point per completed pair. -/
def swimmerEval (cache : Option SAS) (cards : List Card) :
    EvalResult × Option SAS :=
  let r := getSharksAndSwimmers cache cards
  let sas := r.1
  let effects :=
    if 1 ≤ sas.sharkCounts.1 ∧ 1 ≤ sas.swimmerCounts.1 then [stealEffect]
    else []
  let numPairs := min (sas.sharkCounts.1 + sas.sharkCounts.2)
    (sas.swimmerCounts.1 + sas.swimmerCounts.2)
  ({ points := (numPairs : ℚ) / 2, effects }, r.2)

/-- `card_types.shark.eval`: transcribed separately from the source; its
body is the same as the swimmer evaluator's. -/
def sharkEval (cache : Option SAS) (cards : List Card) :
    EvalResult × Option SAS :=
  let r := getSharksAndSwimmers cache cards
  let sas := r.1
  let effects :=
    if 1 ≤ sas.sharkCounts.1 ∧ 1 ≤ sas.swimmerCounts.1 then [stealEffect]
    else []
  let numPairs := min (sas.sharkCounts.1 + sas.sharkCounts.2)
    (sas.swimmerCounts.1 + sas.swimmerCounts.2)
  ({ points := (numPairs : ℚ) / 2, effects }, r.2)

/-- The mermaid allocation loop: for each of `n` mermaids, scan the color
frequency entries in iteration order, skip colors already visited, take
the first remaining one (adding its count) and stop the inner scan. -/
def mermaidAlloc (freq : List (Color × Nat)) : Nat → List Color → Nat
  | 0, _ => 0
  | n + 1, visited =>
    match freq.find? (fun e => ¬ visited.contains e.1) with
    | none => mermaidAlloc freq n visited
    | some e => e.2 + mermaidAlloc freq n (e.1 :: visited)

/-- `card_types.mermaid.eval`: the four-mermaid win effect, then the
color-allocation loop over the non-mermaid color frequency table. -/
def mermaidEval (cards : List Card) : EvalResult :=
  let total := (cards.filter (fun c => c.name = CardName.mermaid)).length
  let effects := if total = 4 then [mermaidWinEffect] else []
  let freq :=
    getColorFrequency (cards.filter (fun c => c.name ≠ CardName.mermaid))
  { points := ((mermaidAlloc freq total [] : Nat) : ℚ), effects }

/-- The `card_types` dispatch table: evaluator of each canonical name.
Only the shark and swimmer evaluators touch the memo; every other
evaluator passes the cache through unchanged. -/
def evalCard (cache : Option SAS) (name : CardName) (cards : List Card) :
    EvalResult × Option SAS :=
  match name with
  | CardName.crab => (evalDuoCard CardName.crab crabEffect cards, cache)
  | CardName.boat => (evalDuoCard CardName.boat boatEffect cards, cache)
  | CardName.fish => (evalDuoCard CardName.fish fishEffect cards, cache)
  | CardName.swimmer => swimmerEval cache cards
  | CardName.shark => sharkEval cache cards
  | CardName.mermaid => (mermaidEval cards, cache)
  | CardName.shell =>
    (evalCollectorCard CardName.shell [0, 2, 4, 6, 8, 10] cards, cache)
  | CardName.octopus =>
    (evalCollectorCard CardName.octopus [0, 3, 6, 9, 12] cards, cache)
  | CardName.penguin =>
    (evalCollectorCard CardName.penguin [1, 3, 5] cards, cache)
  | CardName.sailor =>
    (evalCollectorCard CardName.sailor [0, 5] cards, cache)
  | CardName.lighthouse =>
    (evalPointMultiplierCard CardName.boat 1 cards, cache)
  | CardName.shoalOfFish =>
    (evalPointMultiplierCard CardName.fish 1 cards, cache)
  | CardName.penguinColony =>
    (evalPointMultiplierCard CardName.penguin 2 cards, cache)
  | CardName.captain =>
    (evalPointMultiplierCard CardName.sailor 3 cards, cache)

/-- One `state_change` record of the aggregator. -/
structure StateChange where
  name : CardName
  result : EvalResult
deriving DecidableEq, Repr

/-- Accumulator of the aggregator's reduce: the visited-name set, the
collected state changes, and the shark/swimmer memo variable. -/
structure RunAcc where
  visited : List CardName
  changes : List StateChange
  cache : Option SAS
deriving DecidableEq, Repr

/-- One step of the aggregator's reduce: skip a name already visited,
otherwise evaluate it against the full card list. -/
def runStep (cards : List Card) (acc : RunAcc) (card : Card) : RunAcc :=
  if acc.visited.contains card.name then acc
  else
    let r := evalCard acc.cache card.name cards
    { visited := card.name :: acc.visited
      changes := acc.changes ++ [{ name := card.name, result := r.1 }]
      cache := r.2 }

/-- The aggregator's reduce over the combined card list, started from a
given memo state (the module variable at the time `turn` is entered). -/
def runEvals (cache0 : Option SAS) (cards : List Card) :
    List StateChange × Option SAS :=
  let acc := cards.foldl (runStep cards)
    { visited := [], changes := [], cache := cache0 }
  (acc.changes, acc.cache)

/-- JS `Set.prototype.add` on the effect set, preserving insertion order. -/
def addEffect (s : List String) (e : String) : List String :=
  if s.contains e then s else s ++ [e]

/-- Adding each of a state change's effects to the effect set. -/
def addEffects (s : List String) (es : List String) : List String :=
  es.foldl addEffect s

/-- The value returned by `turn`. -/
structure TurnSummary where
  effects : List String
  points : ℚ
  colorFrequency : List (Color × Nat)
deriving DecidableEq, Repr

/-- One step of the combine reduce: union the effects into the set and add
the points. -/
def combineStep (acc : List String × ℚ) (sc : StateChange) :
    List String × ℚ :=
  (addEffects acc.1 sc.result.effects, acc.2 + sc.result.points)

/-- `turn(hand, played)`: run the aggregator, union effects, sum points,
inject the round-ending advisory at 7 points, and attach the overall
color frequency.  The second component is the module-level memo after the
call, which the source never resets. -/
def turn (cache0 : Option SAS) (hand played : List Card) :
    TurnSummary × Option SAS :=
  let cards := hand ++ played
  let run := runEvals cache0 cards
  let combined := run.1.foldl combineStep (([] : List String), (0 : ℚ))
  let effects :=
    if 7 ≤ combined.2 then addEffect combined.1 roundEndEffect else combined.1
  ({ effects, points := combined.2, colorFrequency := getColorFrequency cards },
   run.2)

/-- The distinct card names of a card list in first-appearance order,
relative to an already-visited name set: the names whose evaluators the
aggregator's reduce will run from that state. -/
def firstOccsFrom (visited : List CardName) : List Card → List CardName
  | [] => []
  | c :: rest =>
    if visited.contains c.name then firstOccsFrom visited rest
    else c.name :: firstOccsFrom (c.name :: visited) rest

/-- The distinct card names of a card list in first-appearance order. -/
def firstOccs (cards : List Card) : List CardName := firstOccsFrom [] cards

/-- The result an evaluator produces within a pass whose memo starts
empty: the cache-independent view of one evaluation. -/
def evalPure (cards : List Card) (name : CardName) : EvalResult :=
  (evalCard none name cards).1

/-- A memo state consistent with a pass over `cards`: either still unset,
or holding exactly the counts computed from `cards`. -/
def goodCache (cards : List Card) (c : Option SAS) : Prop :=
  c = none ∨ c = some (computeSharksAndSwimmers cards)

/-- The shark/swimmer pair count of a pass: the lesser of the two total
counts across hand and played. -/
def sasPairs (cards : List Card) : Nat :=
  min ((computeSharksAndSwimmers cards).sharkCounts.1 +
        (computeSharksAndSwimmers cards).sharkCounts.2)
      ((computeSharksAndSwimmers cards).swimmerCounts.1 +
        (computeSharksAndSwimmers cards).swimmerCounts.2)

/-- The integer part of each evaluator's points: every evaluator except
shark and swimmer returns a whole number of points; for those two the
integer part is zero (their contribution is the half-pair term). -/
def natPoints (cards : List Card) : CardName → Nat
  | CardName.crab =>
    ((getCardsByName CardName.crab cards).1 +
      (getCardsByName CardName.crab cards).2) / 2
  | CardName.boat =>
    ((getCardsByName CardName.boat cards).1 +
      (getCardsByName CardName.boat cards).2) / 2
  | CardName.fish =>
    ((getCardsByName CardName.fish cards).1 +
      (getCardsByName CardName.fish cards).2) / 2
  | CardName.swimmer => 0
  | CardName.shark => 0
  | CardName.mermaid =>
    mermaidAlloc
      (getColorFrequency (cards.filter (fun c => c.name ≠ CardName.mermaid)))
      ((cards.filter (fun c => c.name = CardName.mermaid)).length) []
  | CardName.shell =>
    (jsAt [0, 2, 4, 6, 8, 10]
      (((cards.filter (fun c => c.name = CardName.shell)).length : Int) - 1)).getD 0
  | CardName.octopus =>
    (jsAt [0, 3, 6, 9, 12]
      (((cards.filter (fun c => c.name = CardName.octopus)).length : Int) - 1)).getD 0
  | CardName.penguin =>
    (jsAt [1, 3, 5]
      (((cards.filter (fun c => c.name = CardName.penguin)).length : Int) - 1)).getD 0
  | CardName.sailor =>
    (jsAt [0, 5]
      (((cards.filter (fun c => c.name = CardName.sailor)).length : Int) - 1)).getD 0
  | CardName.lighthouse =>
    (cards.filter (fun c => c.name = CardName.boat)).length * 1
  | CardName.shoalOfFish =>
    (cards.filter (fun c => c.name = CardName.fish)).length * 1
  | CardName.penguinColony =>
    (cards.filter (fun c => c.name = CardName.penguin)).length * 2
  | CardName.captain =>
    (cards.filter (fun c => c.name = CardName.sailor)).length * 3

/-- The fixed advisory strings any evaluator can emit. -/
def builtinEffects : List String :=
  [crabEffect, boatEffect, fishEffect, stealEffect, mermaidWinEffect]

/-- Input refuting the descending-frequency reading of mermaid scoring:
one mermaid, one light grey card first, then two dark blue cards. -/
def mermaidOrderCards : List Card :=
  [⟨CardName.mermaid, Color.white, CardState.hand⟩,
   ⟨CardName.crab, Color.lightGrey, CardState.hand⟩,
   ⟨CardName.crab, Color.darkBlue, CardState.hand⟩,
   ⟨CardName.crab, Color.darkBlue, CardState.hand⟩]

/-- First pass of the cache-leak scenario: a lone shark in hand. -/
def leakFirstHand : List Card :=
  [⟨CardName.shark, Color.darkBlue, CardState.hand⟩]

/-- Second pass of the cache-leak scenario: a shark and a swimmer in
hand, which fresh counts would score as one completed pair. -/
def leakSecondHand : List Card :=
  [⟨CardName.shark, Color.darkBlue, CardState.hand⟩,
   ⟨CardName.swimmer, Color.lightBlue, CardState.hand⟩]

/-- A hand of `k` shell cards, for the collector scaling-table checks. -/
def shellHand (k : Nat) : List Card :=
  List.replicate k ⟨CardName.shell, Color.yellow, CardState.hand⟩

theorem contains_iff_mem_name (V : List CardName) (n : CardName) :
    V.contains n = true ↔ n ∈ V := by
  simp [List.contains, List.elem_iff]

theorem hand_add_played (n : CardName) (cards : List Card) :
    (getCardsByName n cards).1 + (getCardsByName n cards).2
      = (cards.filter (fun c => c.name = n)).length := by
  unfold getCardsByName
  dsimp only
  rw [List.length_eq_countP_add_countP
    (p := fun c => decide (c.state = CardState.hand))]
  congr 1
  refine List.countP_congr ?_
  intro c _
  cases h : c.state <;> simp [h]

theorem evalCard_fst_good (cards : List Card) (c : Option SAS)
    (h : goodCache cards c) (n : CardName) :
    (evalCard c n cards).1 = evalPure cards n := by
  cases n <;> rcases h with h | h <;> subst h <;> rfl

theorem evalCard_snd_good (cards : List Card) (c : Option SAS)
    (h : goodCache cards c) (n : CardName) :
    goodCache cards (evalCard c n cards).2 := by
  cases n <;> rcases h with h | h <;> subst h <;>
    first
      | exact Or.inl rfl
      | exact Or.inr rfl

theorem runFold_spec (cards : List Card) :
    ∀ (cs : List Card) (V : List CardName) (CH : List StateChange)
      (c : Option SAS), goodCache cards c →
      (cs.foldl (runStep cards) ⟨V, CH, c⟩).changes
          = CH ++ (firstOccsFrom V cs).map
              (fun n => { name := n, result := evalPure cards n })
        ∧ goodCache cards (cs.foldl (runStep cards) ⟨V, CH, c⟩).cache := by
  intro cs
  induction cs with
  | nil => intro V CH c h; simpa [firstOccsFrom] using h
  | cons x rest ih =>
    intro V CH c h
    rw [List.foldl_cons]
    by_cases hv : V.contains x.name
    · have hvm : x.name ∈ V := (contains_iff_mem_name V x.name).mp hv
      have hstep : runStep cards ⟨V, CH, c⟩ x = ⟨V, CH, c⟩ := by
        simp [runStep, hvm]
      rw [hstep]
      have h2 := ih V CH c h
      simpa [firstOccsFrom, hvm] using h2
    · have hvm : x.name ∉ V := fun hm =>
        hv ((contains_iff_mem_name V x.name).mpr hm)
      have hstep : runStep cards ⟨V, CH, c⟩ x
          = ⟨x.name :: V,
             CH ++ [{ name := x.name, result := (evalCard c x.name cards).1 }],
             (evalCard c x.name cards).2⟩ := by
        simp [runStep, hvm]
      rw [evalCard_fst_good cards c h x.name] at hstep
      rw [hstep]
      have h2 := ih (x.name :: V)
        (CH ++ [{ name := x.name, result := evalPure cards x.name }])
        ((evalCard c x.name cards).2) (evalCard_snd_good cards c h x.name)
      refine ⟨?_, h2.2⟩
      rw [h2.1]
      simp [firstOccsFrom, hvm]

theorem runEvals_changes (cards : List Card) (c : Option SAS)
    (h : goodCache cards c) :
    (runEvals c cards).1 = (firstOccs cards).map
      (fun n => { name := n, result := evalPure cards n }) := by
  have h2 := runFold_spec cards cards [] [] c h
  simpa [runEvals, firstOccs] using h2.1

theorem runEvals_cache_good (cards : List Card) (c : Option SAS)
    (h : goodCache cards c) : goodCache cards (runEvals c cards).2 := by
  have h2 := runFold_spec cards cards [] [] c h
  simpa [runEvals] using h2.2

theorem mem_firstOccsFrom (n : CardName) :
    ∀ (cs : List Card) (V : List CardName),
      n ∈ firstOccsFrom V cs ↔ n ∉ V ∧ n ∈ cs.map Card.name := by
  intro cs
  induction cs with
  | nil => intro V; simp [firstOccsFrom]
  | cons x rest ih =>
    intro V
    by_cases hv : V.contains x.name
    · have hvm : x.name ∈ V := (contains_iff_mem_name V x.name).mp hv
      rw [firstOccsFrom, if_pos hv, ih]
      simp only [List.map_cons, List.mem_cons]
      constructor
      · rintro ⟨hnv, hr⟩
        exact ⟨hnv, Or.inr hr⟩
      · rintro ⟨hnv, hx | hr⟩
        · exact absurd (hx ▸ hvm) hnv
        · exact ⟨hnv, hr⟩
    · have hvm : x.name ∉ V := fun hm =>
        hv ((contains_iff_mem_name V x.name).mpr hm)
      rw [firstOccsFrom, if_neg hv]
      simp only [List.mem_cons, ih, List.map_cons]
      constructor
      · rintro (rfl | ⟨hnv, hr⟩)
        · exact ⟨hvm, Or.inl rfl⟩
        · exact ⟨fun hV => hnv (Or.inr hV), Or.inr hr⟩
      · rintro ⟨hnv, rfl | hr⟩
        · exact Or.inl rfl
        · by_cases hx : n = x.name
          · exact Or.inl hx
          · exact Or.inr ⟨by simp [List.mem_cons, hx, hnv], hr⟩

theorem nodup_firstOccsFrom :
    ∀ (cs : List Card) (V : List CardName), (firstOccsFrom V cs).Nodup := by
  intro cs
  induction cs with
  | nil => intro V; simp [firstOccsFrom]
  | cons x rest ih =>
    intro V
    by_cases hv : V.contains x.name
    · rw [firstOccsFrom, if_pos hv]
      exact ih V
    · rw [firstOccsFrom, if_neg hv, List.nodup_cons]
      refine ⟨fun hmem => ?_, ih _⟩
      rw [mem_firstOccsFrom] at hmem
      exact hmem.1 (List.mem_cons_self _ _)

theorem mem_firstOccs (n : CardName) (cards : List Card) :
    n ∈ firstOccs cards ↔ n ∈ cards.map Card.name := by
  rw [firstOccs, mem_firstOccsFrom]
  simp

theorem nodup_firstOccs (cards : List Card) : (firstOccs cards).Nodup :=
  nodup_firstOccsFrom cards []

theorem contains_iff_mem_str (s : List String) (e : String) :
    s.contains e = true ↔ e ∈ s := by
  simp [List.contains, List.elem_iff]

theorem mem_addEffect (s : List String) (e x : String) :
    x ∈ addEffect s e ↔ x ∈ s ∨ x = e := by
  unfold addEffect
  by_cases h : s.contains e
  · rw [if_pos h]
    have hm := (contains_iff_mem_str s e).mp h
    constructor
    · exact Or.inl
    · rintro (hx | rfl)
      · exact hx
      · exact hm
  · rw [if_neg h]
    simp [List.mem_append]

theorem self_mem_addEffect (s : List String) (e : String) :
    e ∈ addEffect s e := by
  rw [mem_addEffect]
  exact Or.inr rfl

theorem addEffects_cons (s : List String) (e : String) (es : List String) :
    addEffects s (e :: es) = addEffects (addEffect s e) es := rfl

theorem mem_addEffects (es : List String) :
    ∀ (s : List String) (x : String),
      x ∈ addEffects s es ↔ x ∈ s ∨ x ∈ es := by
  induction es with
  | nil => intro s x; simp [addEffects]
  | cons e rest ih =>
    intro s x
    rw [addEffects_cons, ih, mem_addEffect]
    simp only [List.mem_cons]
    tauto

theorem combine_points (l : List StateChange) :
    ∀ (s : List String) (q : ℚ),
      (l.foldl combineStep (s, q)).2
        = q + (l.map (fun sc => sc.result.points)).sum := by
  induction l with
  | nil => intro s q; simp
  | cons sc rest ih =>
    intro s q
    rw [List.foldl_cons,
      show combineStep (s, q) sc
        = (addEffects s sc.result.effects, q + sc.result.points) from rfl,
      ih]
    rw [List.map_cons, List.sum_cons, add_assoc]

theorem combine_effects_mem (l : List StateChange) :
    ∀ (s : List String) (q : ℚ) (x : String),
      x ∈ (l.foldl combineStep (s, q)).1
        ↔ x ∈ s ∨ ∃ sc ∈ l, x ∈ sc.result.effects := by
  induction l with
  | nil => intro s q x; simp
  | cons sc rest ih =>
    intro s q x
    rw [List.foldl_cons,
      show combineStep (s, q) sc
        = (addEffects s sc.result.effects, q + sc.result.points) from rfl,
      ih, mem_addEffects]
    simp only [List.mem_cons]
    constructor
    · rintro ((hs | he) | ⟨sc', hsc', he'⟩)
      · exact Or.inl hs
      · exact Or.inr ⟨sc, Or.inl rfl, he⟩
      · exact Or.inr ⟨sc', Or.inr hsc', he'⟩
    · rintro (hs | ⟨sc', hsc' | hsc', he'⟩)
      · exact Or.inl (Or.inl hs)
      · exact Or.inl (Or.inr (hsc' ▸ he'))
      · exact Or.inr ⟨sc', hsc', he'⟩

theorem turn_points (cache0 : Option SAS) (hand played : List Card) :
    (turn cache0 hand played).1.points
      = ((runEvals cache0 (hand ++ played)).1.map
          (fun sc => sc.result.points)).sum := by
  simp only [turn]
  rw [combine_points]
  simp

theorem turn_effects_mem (cache0 : Option SAS) (hand played : List Card)
    (x : String) :
    x ∈ (turn cache0 hand played).1.effects
      ↔ (∃ sc ∈ (runEvals cache0 (hand ++ played)).1,
            x ∈ sc.result.effects)
        ∨ (7 ≤ (turn cache0 hand played).1.points ∧ x = roundEndEffect) := by
  rw [turn_points]
  simp only [turn]
  split
  · next hge =>
    rw [mem_addEffect, combine_effects_mem]
    rw [combine_points] at hge
    simp only [List.not_mem_nil, false_or, zero_add] at hge ⊢
    constructor
    · rintro (h | rfl)
      · exact Or.inl h
      · exact Or.inr ⟨hge, rfl⟩
    · rintro (h | ⟨h7, rfl⟩)
      · exact Or.inl h
      · exact Or.inr rfl
  · next hlt =>
    rw [combine_effects_mem]
    rw [combine_points] at hlt
    simp only [List.not_mem_nil, false_or, zero_add] at hlt ⊢
    constructor
    · exact Or.inl
    · rintro (h | ⟨h7, rfl⟩)
      · exact h
      · exact absurd h7 hlt

theorem evalCard_effects_sub (c : Option SAS) (n : CardName)
    (cards : List Card) (e : String)
    (he : e ∈ (evalCard c n cards).1.effects) : e ∈ builtinEffects := by
  cases n <;>
    simp only [evalCard, evalDuoCard, evalCollectorCard,
      evalPointMultiplierCard, swimmerEval, sharkEval, mermaidEval,
      builtinEffects] at he ⊢ <;>
    first
      | exact absurd he (List.not_mem_nil e)
      | (split at he <;> simp_all)

theorem runFold_effects (cards : List Card) :
    ∀ (cs : List Card) (acc : RunAcc),
      (∀ sc ∈ acc.changes, ∀ e ∈ sc.result.effects, e ∈ builtinEffects) →
      ∀ sc ∈ (cs.foldl (runStep cards) acc).changes,
        ∀ e ∈ sc.result.effects, e ∈ builtinEffects := by
  intro cs
  induction cs with
  | nil => intro acc hacc; simpa using hacc
  | cons x rest ih =>
    intro acc hacc
    rw [List.foldl_cons]
    apply ih
    unfold runStep
    split
    · exact hacc
    · intro sc hsc
      rcases List.mem_append.mp hsc with h1 | h2
      · exact hacc sc h1
      · rw [List.mem_singleton] at h2
        subst h2
        intro e he
        exact evalCard_effects_sub _ _ _ _ he

theorem runEvals_effects_sub (cache0 : Option SAS) (cards : List Card) :
    ∀ sc ∈ (runEvals cache0 cards).1, ∀ e ∈ sc.result.effects,
      e ∈ builtinEffects := by
  intro sc hsc
  refine runFold_effects cards cards ⟨[], [], cache0⟩ ?_ sc hsc
  intro sc' hsc'
  exact absurd hsc' (List.not_mem_nil sc')

theorem roundEnd_not_builtin : roundEndEffect ∉ builtinEffects := by
  decide

theorem sasPairs_eq (cards : List Card) :
    sasPairs cards
      = min ((cards.filter (fun c => c.name = CardName.shark)).length)
            ((cards.filter (fun c => c.name = CardName.swimmer)).length) := by
  simp only [sasPairs, computeSharksAndSwimmers]
  rw [hand_add_played, hand_add_played]

theorem count_zero_of_not_mem_names (n : CardName) (cards : List Card)
    (h : n ∉ cards.map Card.name) :
    (cards.filter (fun c => c.name = n)).length = 0 := by
  rw [List.length_eq_zero, List.filter_eq_nil_iff]
  intro a ha
  simp only [decide_eq_true_eq]
  intro hname
  exact h (List.mem_map.mpr ⟨a, ha, hname⟩)

theorem evalPure_points (cards : List Card) (n : CardName) :
    (evalPure cards n).points
      = (natPoints cards n : ℚ)
        + (if n = CardName.shark ∨ n = CardName.swimmer
           then (sasPairs cards : ℚ) / 2 else 0) := by
  cases n <;>
    simp [evalPure, evalCard, evalDuoCard, evalCollectorCard,
      evalPointMultiplierCard, swimmerEval, sharkEval, mermaidEval,
      getSharksAndSwimmers, natPoints, sasPairs]

theorem sum_map_add_split (L : List CardName) (f g : CardName → ℚ) :
    (L.map (fun n => f n + g n)).sum = (L.map f).sum + (L.map g).sum := by
  induction L with
  | nil => simp
  | cons a t ih =>
    simp only [List.map_cons, List.sum_cons, ih]
    ring

theorem sum_map_indicator_pair (x : ℚ) :
    ∀ (L : List CardName), L.Nodup →
      (L.map (fun n => if n = CardName.shark ∨ n = CardName.swimmer
          then x else 0)).sum
        = (if CardName.shark ∈ L then x else 0)
          + (if CardName.swimmer ∈ L then x else 0) := by
  intro L
  induction L with
  | nil => intro _; simp
  | cons a t ih =>
    intro h
    rw [List.nodup_cons] at h
    rw [List.map_cons, List.sum_cons, ih h.2]
    rcases h with ⟨hnt, _⟩
    by_cases ha1 : a = CardName.shark
    · subst ha1
      have hswne : ¬ (CardName.swimmer = CardName.shark) := by decide
      simp only [List.mem_cons, hswne, false_or, hnt, or_false, true_or,
        if_true, if_false, eq_self_iff_true]
      ring
    · by_cases ha2 : a = CardName.swimmer
      · subst ha2
        have hshne : ¬ (CardName.shark = CardName.swimmer) := by decide
        simp only [List.mem_cons, hshne, false_or, hnt, or_false, or_true,
          if_true, if_false, eq_self_iff_true]
        ring
      · have ha1s : ¬ (CardName.shark = a) := fun hh => ha1 hh.symm
        have ha2s : ¬ (CardName.swimmer = a) := fun hh => ha2 hh.symm
        simp only [List.mem_cons, ha1, ha2, ha1s, ha2s, false_or, or_false,
          if_false]
        ring

theorem jsAt_getD_formula (scaling : List Nat) (t : Nat) :
    (jsAt scaling ((t : Int) - 1)).getD 0
      = (if t = 0 then scaling.getD (scaling.length - 1) 0
         else if t ≤ scaling.length then scaling.getD (t - 1) 0
         else 0) := by
  match t with
  | 0 =>
    rw [if_pos rfl, jsAt]
    rw [if_neg (by norm_num : ¬ ((0:Int) ≤ ((0:Nat) : Int) - 1))]
    dsimp only
    rcases scaling with _ | ⟨a, l⟩
    · rw [if_neg (by simp)]
      simp
    · rw [if_pos (by simp only [List.length_cons]; push_cast; omega :
        (0:Int) ≤ ((a :: l).length : Int) + (((0:Nat) : Int) - 1))]
      have htn : (((a :: l).length : Int) + (((0:Nat) : Int) - 1)).toNat
          = (a :: l).length - 1 := by
        push_cast
        omega
      rw [htn, List.getD_eq_get?]
  | u + 1 =>
    rw [if_neg (Nat.succ_ne_zero u), jsAt]
    rw [if_pos (by push_cast; omega : (0:Int) ≤ ((u + 1 : Nat) : Int) - 1)]
    have htn : (((u + 1 : Nat) : Int) - 1).toNat = u := by push_cast; omega
    rw [htn]
    by_cases hle : u + 1 ≤ scaling.length
    · rw [if_pos hle, List.getD_eq_get?, Nat.add_sub_cancel]
    · rw [if_neg hle]
      have hnone : scaling.get? u = none := by
        rw [List.get?_eq_none]
        omega
      rw [hnone]
      rfl

theorem collector_points_formula (n : CardName) (scaling : List Nat)
    (cards : List Card) :
    (evalCollectorCard n scaling cards).points
      = (if (cards.filter (fun c => c.name = n)).length = 0
         then ((scaling.getD (scaling.length - 1) 0 : Nat) : ℚ)
         else if (cards.filter (fun c => c.name = n)).length ≤ scaling.length
         then ((scaling.getD
            ((cards.filter (fun c => c.name = n)).length - 1) 0 : Nat) : ℚ)
         else 0) := by
  show ((jsAt scaling
      (((cards.filter (fun c => c.name = n)).length : Int) - 1)).getD 0 : ℚ)
    = _
  rw [jsAt_getD_formula]
  rw [apply_ite (fun x : Nat => (x : ℚ)), apply_ite (fun x : Nat => (x : ℚ))]
  norm_num

/-- C1 counterexample: with zero shell cards the collector evaluator
returns 10 points, not 0 — `Array.at(-1)` wraps to the last scaling
entry, so the zero-count case does not yield 0 as claimed. -/
theorem collector_zero_count_counterexample :
    (evalCollectorCard CardName.shell [0, 2, 4, 6, 8, 10] []).points = 10
      ∧ (evalCollectorCard CardName.shell [0, 2, 4, 6, 8, 10] []).points
          ≠ 0 := by
  constructor <;> with_unfolding_all decide

/-- C1 (amended): for every collector-card evaluator the points equal the
scaling table entry at index total-1 when 1 ≤ total ≤ table length, equal
0 when total exceeds the table length, and equal the table's last entry
when total = 0 (JavaScript `.at(-1)` wraps to the end); in particular the
shell evaluator yields 10, 0, 2, 10 points for 0, 1, 2, 6 shells. -/
theorem collector_card_points :
    (∀ (n : CardName) (scaling : List Nat) (cards : List Card),
      (evalCollectorCard n scaling cards).points
        = (if (cards.filter (fun c => c.name = n)).length = 0
           then ((scaling.getD (scaling.length - 1) 0 : Nat) : ℚ)
           else if (cards.filter (fun c => c.name = n)).length
              ≤ scaling.length
           then ((scaling.getD
              ((cards.filter (fun c => c.name = n)).length - 1) 0 : Nat) : ℚ)
           else 0))
    ∧ (evalCollectorCard CardName.shell [0, 2, 4, 6, 8, 10]
        (shellHand 0)).points = 10
    ∧ (evalCollectorCard CardName.shell [0, 2, 4, 6, 8, 10]
        (shellHand 1)).points = 0
    ∧ (evalCollectorCard CardName.shell [0, 2, 4, 6, 8, 10]
        (shellHand 2)).points = 2
    ∧ (evalCollectorCard CardName.shell [0, 2, 4, 6, 8, 10]
        (shellHand 6)).points = 10 := by
  refine ⟨collector_points_formula, ?_, ?_, ?_, ?_⟩ <;>
    with_unfolding_all decide

/-- C2: on a list with one mermaid whose non-mermaid color table is
light grey (1 card) before dark blue (2 cards), the mermaid evaluator
scores 1 point — it consumes colors in object-key insertion order, not in
descending frequency order as both the spec and the evaluator's own doc
comment describe (which would give 2 points). -/
theorem mermaid_insertion_order_bug :
    getColorFrequency (mermaidOrderCards.filter
        (fun c => c.name ≠ CardName.mermaid))
      = [(Color.lightGrey, 1), (Color.darkBlue, 2)]
    ∧ (mermaidEval mermaidOrderCards).points = 1
    ∧ (mermaidEval mermaidOrderCards).points ≠ 2 := by
  refine ⟨by decide, ?_, ?_⟩ <;> with_unfolding_all decide

/-- C3: the shark/swimmer memo is not fresh at the start of a second
scoring pass.  After a pass over a lone shark, a second pass over a shark
plus a swimmer still uses the first pass's counts and scores 0 points,
whereas a pass with a fresh memo scores 1. -/
theorem cache_leaks_across_passes :
    (turn (turn none leakFirstHand []).2 leakSecondHand []).1.points = 0
    ∧ (turn none leakSecondHand []).1.points = 1 := by
  constructor <;> with_unfolding_all decide

/-- C4: within one scoring pass the shark evaluator's points plus the
swimmer evaluator's points equal min(total sharks, total swimmers),
counted across hand and played combined. -/
theorem shark_swimmer_points_sum (cards : List Card) :
    (sharkEval none cards).1.points
        + (swimmerEval (sharkEval none cards).2 cards).1.points
      = ((min ((cards.filter (fun c => c.name = CardName.shark)).length)
             ((cards.filter (fun c => c.name = CardName.swimmer)).length)
          : Nat) : ℚ) := by
  have h1 : (sharkEval none cards).1.points = (sasPairs cards : ℚ) / 2 := rfl
  have h2 : (sharkEval none cards).2
      = some (computeSharksAndSwimmers cards) := rfl
  have h3 : (swimmerEval (some (computeSharksAndSwimmers cards))
      cards).1.points = (sasPairs cards : ℚ) / 2 := rfl
  rw [h1, h2, h3, add_halves, sasPairs_eq]

/-- C5: every duo evaluator (crab, boat, fish) scores
floor((hand + played) / 2) points, and its advisory effect is present
exactly when at least two cards of that name are in the private hand. -/
theorem duo_card_points_and_effects (cards : List Card) :
    ((evalDuoCard CardName.crab crabEffect cards).points
        = ((((getCardsByName CardName.crab cards).1
            + (getCardsByName CardName.crab cards).2) / 2 : Nat) : ℚ)
      ∧ (crabEffect ∈ (evalDuoCard CardName.crab crabEffect cards).effects
          ↔ 2 ≤ (getCardsByName CardName.crab cards).1))
    ∧ ((evalDuoCard CardName.boat boatEffect cards).points
        = ((((getCardsByName CardName.boat cards).1
            + (getCardsByName CardName.boat cards).2) / 2 : Nat) : ℚ)
      ∧ (boatEffect ∈ (evalDuoCard CardName.boat boatEffect cards).effects
          ↔ 2 ≤ (getCardsByName CardName.boat cards).1))
    ∧ ((evalDuoCard CardName.fish fishEffect cards).points
        = ((((getCardsByName CardName.fish cards).1
            + (getCardsByName CardName.fish cards).2) / 2 : Nat) : ℚ)
      ∧ (fishEffect ∈ (evalDuoCard CardName.fish fishEffect cards).effects
          ↔ 2 ≤ (getCardsByName CardName.fish cards).1)) := by
  refine ⟨⟨rfl, ?_⟩, ⟨rfl, ?_⟩, ⟨rfl, ?_⟩⟩ <;>
    · unfold evalDuoCard
      dsimp only
      split
      · next h =>
        simp only [List.mem_singleton, true_iff]
        omega
      · next h =>
        simp only [List.not_mem_nil, false_iff]
        omega

/-- C6: the round-ending advisory is in the turn's effect set exactly
when the summed points total is at least 7, for every input and any
initial memo state. -/
theorem roundEnd_effect_iff_seven (cache0 : Option SAS)
    (hand played : List Card) :
    roundEndEffect ∈ (turn cache0 hand played).1.effects
      ↔ 7 ≤ (turn cache0 hand played).1.points := by
  rw [turn_effects_mem]
  constructor
  · rintro (⟨sc, hsc, he⟩ | ⟨h7, _⟩)
    · exact absurd (runEvals_effects_sub cache0 _ sc hsc roundEndEffect he)
        roundEnd_not_builtin
    · exact h7
  · intro h7
    exact Or.inr ⟨h7, rfl⟩

/-- C7: one scoring pass runs the evaluator of every distinct card name
present in the input exactly once and runs no evaluator for an absent
name: the state-change list holds each present name once. -/
theorem aggregator_evaluates_each_name_once (hand played : List Card)
    (n : CardName) :
    ((runEvals none (hand ++ played)).1.map StateChange.name).count n
      = if n ∈ (hand ++ played).map Card.name then 1 else 0 := by
  rw [runEvals_changes _ _ (Or.inl rfl), List.map_map]
  rw [show (StateChange.name ∘ fun n =>
      ({ name := n, result := evalPure (hand ++ played) n } : StateChange))
      = id from rfl, List.map_id]
  rw [List.count_eq_of_nodup (nodup_firstOccs _)]
  simp [mem_firstOccs]

/-- C8: scoring the same input twice yields the same summary even though
the second pass observes the memo populated by the first. -/
theorem turn_idempotent (hand played : List Card) :
    (turn (turn none hand played).2 hand played).1
      = (turn none hand played).1 := by
  have hgood : goodCache (hand ++ played) (turn none hand played).2 := by
    have h2 := runEvals_cache_good (hand ++ played) none (Or.inl rfl)
    simpa [turn] using h2
  simp only [turn] at hgood ⊢
  rw [runEvals_changes _ _ hgood, runEvals_changes _ _ (Or.inl rfl)]

/-- C9: the points total of one scoring pass over any input is a whole
number: only the shark and swimmer evaluators contribute halves, and
those halves always combine to an integer. -/
theorem turn_points_whole (hand played : List Card) :
    ∃ m : Nat, (turn none hand played).1.points = (m : ℚ) := by
  rw [turn_points, runEvals_changes (hand ++ played) none (Or.inl rfl),
    List.map_map]
  rw [show ((fun sc => sc.result.points) ∘ fun n =>
      ({ name := n, result := evalPure (hand ++ played) n } : StateChange))
      = fun n => (evalPure (hand ++ played) n).points from rfl]
  rw [List.map_congr_left
    (fun n _ => evalPure_points (hand ++ played) n)]
  rw [sum_map_add_split]
  rw [sum_map_indicator_pair _ _ (nodup_firstOccs (hand ++ played))]
  rw [show ((firstOccs (hand ++ played)).map
      (fun n => ((natPoints (hand ++ played) n : ℚ)))).sum
      = (((firstOccs (hand ++ played)).map
          (natPoints (hand ++ played))).sum : ℚ) by
    rw [Nat.cast_list_sum, List.map_map]
    rfl]
  by_cases hsh : CardName.shark ∈ firstOccs (hand ++ played) <;>
    by_cases hsw : CardName.swimmer ∈ firstOccs (hand ++ played)
  · rw [if_pos hsh, if_pos hsw, add_halves]
    refine ⟨((firstOccs (hand ++ played)).map
      (natPoints (hand ++ played))).sum + sasPairs (hand ++ played), ?_⟩
    push_cast
    ring
  · have h0 : sasPairs (hand ++ played) = 0 := by
      rw [sasPairs_eq]
      rw [count_zero_of_not_mem_names CardName.swimmer (hand ++ played)
        (fun hm => hsw ((mem_firstOccs _ _).mpr hm))]
      exact Nat.min_zero _
    rw [if_pos hsh, if_neg hsw, h0]
    refine ⟨((firstOccs (hand ++ played)).map
      (natPoints (hand ++ played))).sum, ?_⟩
    push_cast
    ring
  · have h0 : sasPairs (hand ++ played) = 0 := by
      rw [sasPairs_eq]
      rw [count_zero_of_not_mem_names CardName.shark (hand ++ played)
        (fun hm => hsh ((mem_firstOccs _ _).mpr hm))]
      exact Nat.zero_min _
    rw [if_neg hsh, if_pos hsw, h0]
    refine ⟨((firstOccs (hand ++ played)).map
      (natPoints (hand ++ played))).sum, ?_⟩
    push_cast
    ring
  · rw [if_neg hsh, if_neg hsw]
    refine ⟨((firstOccs (hand ++ played)).map
      (natPoints (hand ++ played))).sum, ?_⟩
    push_cast
    ring

/-- C10: the shark evaluator and the swimmer evaluator are extensionally
equal: for every memo state and card list they return the same points
and the same effects. -/
theorem shark_swimmer_evaluators_equal (cache : Option SAS)
    (cards : List Card) :
    sharkEval cache cards = swimmerEval cache cards := rfl
